import Mathlib

/-!
# A verification of the SQL fragment builders in `helpers/sql.js`

This file gives a shallow embedding of the two clause builders
`sqlForPartialUpdate` (the spec's `buildSetClause`) and `sqlForFilterBy`
(the spec's `buildWhereClause`), together with the argument validator
`validateArgs`, and proves the specified properties about them.

JavaScript values that can reach these functions are modelled by `JsPrim`
(scalar property values) and `JsArg` (whole arguments: `undefined`, `null`,
arrays, and plain objects).  A plain object is an insertion-ordered list of
key/value bindings; `Object.keys`, `Object.values` and property access are
modelled on that list.  Exceptions are modelled by `Except JsError`, where
`JsError.badRequest` stands for the repository's `BadRequestError` and
`JsError.typeError` for a raw JavaScript `TypeError`.
-/

/-- A scalar JavaScript value as it occurs as a property value of the
payload/map arguments (spec §3: "string, number, boolean, or null");
`undefined` is the result of reading an absent property.  Numbers are modelled
as integers (no claim depends on non-integral numbers). -/
inductive JsPrim where
  | undefined
  | null
  | bool (b : Bool)
  | num (n : Int)
  | str (s : String)
deriving DecidableEq, Repr

/-- A JavaScript plain object with scalar property values: the insertion-ordered
list of its key/value bindings. -/
abbrev Obj := List (String × JsPrim)

/-- A JavaScript value as passed for a whole argument of the helpers. -/
inductive JsArg where
  | undefined
  | null
  | array (elems : List JsPrim)
  | obj (entries : List (String × JsPrim))
deriving DecidableEq, Repr

/-- A thrown JavaScript exception: the repository's `BadRequestError`
(carrying its message) or a raw `TypeError`. -/
inductive JsError where
  | badRequest (msg : String)
  | typeError (msg : String)
deriving DecidableEq, Repr

/-- Property access `o[k]` on a plain object: the value of the first binding
for `k`, or `undefined` when no binding exists. -/
def getProp (o : Obj) (k : String) : JsPrim :=
  match o with
  | [] => .undefined
  | (k2, v) :: rest => if k2 = k then v else getProp rest k

/-- JavaScript truthiness of a scalar value. -/
def truthy : JsPrim → Bool
  | .undefined => false
  | .null => false
  | .bool b => b
  | .num n => n != 0
  | .str s => s != ""

/-- JavaScript string conversion of a scalar value, as performed by template
interpolation and by `Array.prototype.join`. -/
def jsToString : JsPrim → String
  | .undefined => "undefined"
  | .null => "null"
  | .bool b => if b then "true" else "false"
  | .num n => toString n
  | .str s => s

/-- The JavaScript `Array.prototype.join(sep)` on a list of strings. -/
def joinSep (sep : String) : List String → String
  | [] => ""
  | [x] => x
  | x :: y :: xs => x ++ sep ++ joinSep sep (y :: xs)

/-! ## `sqlForPartialUpdate` (the spec's `buildSetClause`) -/

/-- The column-name resolution ``jsToSql[colName] || colName`` from the
fragment template in `sqlForPartialUpdate`: the looked-up value when it is
truthy (stringified by the template), the key itself otherwise. -/
def resolveCol (jsToSql : Obj) (colName : String) : String :=
  let v := getProp jsToSql colName
  if truthy v then jsToString v else colName

/-- The result object `{ setCols, values }` of `sqlForPartialUpdate`. -/
structure SetResult where
  setCols : String
  values : List JsPrim
deriving DecidableEq, Repr

/-- The check `Object.getPrototypeOf(a) === Object.prototype`: true for a plain object,
false for an array (whose prototype is `Array.prototype`), and a `TypeError`
for `null`/`undefined`, which `Object.getPrototypeOf` cannot coerce. -/
def protoIsObjectLiteral : JsArg → Except JsError Bool
  | .undefined => .error (.typeError "Cannot convert undefined or null to object")
  | .null => .error (.typeError "Cannot convert undefined or null to object")
  | .array _ => .ok false
  | .obj _ => .ok true

/-- The argument validator `validateArgs(dataToUpdate, jsToSql)`.  It checks
`undefined` first; then evaluates `Object.getPrototypeOf(dataToUpdate)` (a
`TypeError` for `null`), short-circuiting to the "object literals" error when
it is not `Object.prototype` before `jsToSql` is even inspected; then does the
same for `jsToSql`; finally rejects an empty `dataToUpdate`. -/
def validateArgs (dataToUpdate jsToSql : JsArg) : Except JsError Unit :=
  if dataToUpdate = JsArg.undefined ∨ jsToSql = JsArg.undefined then
    .error (.badRequest "Missing args")
  else
    match protoIsObjectLiteral dataToUpdate with
    | .error e => .error e
    | .ok false => .error (.badRequest "Args must be object literals")
    | .ok true =>
      match protoIsObjectLiteral jsToSql with
      | .error e => .error e
      | .ok false => .error (.badRequest "Args must be object literals")
      | .ok true =>
        match dataToUpdate with
        | .obj entries =>
          if entries.length = 0 then .error (.badRequest "No data") else .ok ()
        | _ => .ok ()

/-- The fragment list ``keys.map((colName, idx) => `"${jsToSql[colName] || colName}"=$${idx + 1}`)``. -/
def setColsFragments (jsToSql : Obj) (keys : List String) : List String :=
  keys.mapIdx (fun idx colName =>
    "\"" ++ resolveCol jsToSql colName ++ "\"=$" ++ Nat.repr (idx + 1))

/-- The builder `sqlForPartialUpdate(dataToUpdate, jsToSql)`: validate, then
map the keys to `"col"=$n` fragments joined by `", "`, paired with the
payload's values in insertion order.  The catch-all arm is unreachable:
`validateArgs` succeeds only when both arguments are plain objects. -/
def sqlForPartialUpdate (dataToUpdate jsToSql : JsArg) : Except JsError SetResult :=
  match validateArgs dataToUpdate jsToSql with
  | .error e => .error e
  | .ok _ =>
    match dataToUpdate, jsToSql with
    | .obj d, .obj j =>
      .ok { setCols := joinSep ", " (setColsFragments j (d.map Prod.fst)),
            values := d.map Prod.snd }
    | _, _ => .error (.typeError "unreachable: validateArgs accepts only object literals")

/-! ## `sqlForFilterBy` (the spec's `buildWhereClause`) -/

/-- The result object `{ whereClause, values }` of `sqlForFilterBy`. -/
structure FilterResult where
  whereClause : String
  values : List JsPrim
deriving DecidableEq, Repr

/-- The `Object.keys`-style property table of an argument: the bindings of a plain
object; index-keyed bindings of an array; a `TypeError` for `null`/`undefined`. -/
def entriesOf : JsArg → Except JsError Obj
  | .obj es => .ok es
  | .array es => .ok (es.mapIdx (fun i v => (Nat.repr i, v)))
  | _ => .error (.typeError "Cannot convert undefined or null to object")

/-- The JavaScript `in` operator `k in a`: membership among an object's own
keys, or an array's index keys and `"length"` (prototype-chain members are not
modelled; no claim depends on them); a `TypeError` when the right operand is
`null`/`undefined`. -/
def keyInArg (k : String) : JsArg → Except JsError Bool
  | .obj es => .ok (decide (k ∈ es.map Prod.fst))
  | .array es => .ok (decide (k = "length" ∨ k ∈ (List.range es.length).map Nat.repr))
  | _ => .error (.typeError "Cannot use in operator to search in null or undefined")

/-- The filter ``Object.keys(criteria).filter(c => c in criteriaToSql)``: the `in` check
runs once per key, so an invalid right operand faults only when at least one
key exists. -/
def filterInMap (keys : List String) (criteriaToSql : JsArg) : Except JsError (List String) :=
  match keys with
  | [] => .ok []
  | k :: ks =>
    match keyInArg k criteriaToSql with
    | .error e => .error e
    | .ok b =>
      match filterInMap ks criteriaToSql with
      | .error e => .error e
      | .ok rest => .ok (if b then k :: rest else rest)

/-- Property access `a[k]` on a whole argument.  Only reached for objects and
arrays (access on `null`/`undefined` is guarded by the `in` operator's
`TypeError` upstream), so those arms default to `undefined`. -/
def getPropArg : JsArg → String → JsPrim
  | .obj es, k => getProp es k
  | .array es, k =>
    if k = "length" then .num (es.length : Int)
    else getProp (es.mapIdx (fun i v => (Nat.repr i, v))) k
  | _, _ => .undefined

/-- The false-drop test `v !== false && v !== 'false'`, negated. -/
def isFalseLike (v : JsPrim) : Bool :=
  v == JsPrim.bool false || v == JsPrim.str "false"

/-- The boolean-verbatim test `v === true || v === 'true'`. -/
def isTrueLike (v : JsPrim) : Bool :=
  v == JsPrim.bool true || v == JsPrim.str "true"

/-- Whether `pat` occurs at the start of `l`. -/
def isPrefixList : List Char → List Char → Bool
  | [], _ => true
  | _ :: _, [] => false
  | p :: ps, c :: cs => p = c && isPrefixList ps cs

/-- Whether `pat` occurs anywhere in `l`. -/
def containsSubAux (pat : List Char) : List Char → Bool
  | [] => isPrefixList pat []
  | c :: cs => isPrefixList pat (c :: cs) || containsSubAux pat cs

/-- The JavaScript `String.prototype.includes(pat)`: `pat` occurs as a contiguous substring
(every string contains the empty one). -/
def strIncludes (s pat : String) : Bool :=
  containsSubAux pat.data s.data

/-- The `.map` body of `sqlForFilterBy` over the surviving criteria, threading
the mutable `paramNum` counter and the `values` accumulator: a true-like value
returns the fragment with no parameter consumed (stringified by the final
`join`); otherwise the value is pushed and the fragment gets a placeholder,
wrapped in `CONCAT('%', $n::text, '%')` when the fragment contains `ILIKE`;
a non-string fragment makes `sql.includes` fault. -/
def condsMap (criteria : Obj) (criteriaToSql : JsArg) :
    List String → Nat → Except JsError (List String × List JsPrim)
  | [], _ => .ok ([], [])
  | c :: cs, paramNum =>
    let v := getProp criteria c
    let sql := getPropArg criteriaToSql c
    if isTrueLike v then
      match condsMap criteria criteriaToSql cs paramNum with
      | .error e => .error e
      | .ok (conds, vals) => .ok (jsToString sql :: conds, vals)
    else
      match sql with
      | .str s =>
        let frag :=
          if strIncludes s "ILIKE" then
            s ++ " CONCAT('%', $" ++ Nat.repr paramNum ++ "::text, '%')"
          else
            s ++ " $" ++ Nat.repr paramNum
        match condsMap criteria criteriaToSql cs (paramNum + 1) with
        | .error e => .error e
        | .ok (conds, vals) => .ok (frag :: conds, v :: vals)
      | _ => .error (.typeError "sql.includes is not a function")

/-- The survivors of the false-drop filter
``validCriteria.filter(c => criteria[c] !== false && criteria[c] !== 'false')``. -/
def survivorsOf (centries : Obj) (validCriteria : List String) : List String :=
  validCriteria.filter (fun c => !(isFalseLike (getProp centries c)))

/-- The conditions/values the builder computes for a property table, past the
`NoValidCriteria` emptiness check: recognized keys, false-drop, then the
fragment map starting at parameter number 1. -/
def condsValsOf (centries : Obj) (criteriaToSql : JsArg) :
    Except JsError (List String × List JsPrim) :=
  match filterInMap (centries.map Prod.fst) criteriaToSql with
  | .error e => .error e
  | .ok validCriteria =>
    condsMap centries criteriaToSql (survivorsOf centries validCriteria) 1

/-- The builder `sqlForFilterBy(criteria, criteriaToSql)`: list the criteria
keys (a `TypeError` for `null`/`undefined` criteria), keep those recognized by
the map, fail with the `BadRequestError` `'Could not filter by criteria
provided'` when none is, drop the false-like ones, build the fragments, and
join the survivors with `' AND '` under a `'WHERE '` prefix (the empty string
when every recognized criterion was dropped). -/
def sqlForFilterBy (criteria criteriaToSql : JsArg) : Except JsError FilterResult :=
  match entriesOf criteria with
  | .error e => .error e
  | .ok centries =>
    match filterInMap (centries.map Prod.fst) criteriaToSql with
    | .error e => .error e
    | .ok validCriteria =>
      if validCriteria.length = 0 then
        .error (.badRequest "Could not filter by criteria provided")
      else
        match condsMap centries criteriaToSql (survivorsOf centries validCriteria) 1 with
        | .error e => .error e
        | .ok (sqlConditions, values) =>
          .ok { whereClause :=
                  if sqlConditions.length != 0 then
                    "WHERE " ++ joinSep " AND " sqlConditions
                  else "",
                values := values }

/-! ## Placeholder extraction

To state the numbering claims, positional placeholders are recovered from a
clause by a left-to-right scan: a placeholder is a `$` followed by a maximal
non-empty run of decimal digits, and is reported as that digit string. -/

/-- One pass over the characters.  The state is `none` outside a placeholder,
or `some acc` with the digits read so far after a `$` (possibly still empty). -/
def phScan : List Char → Option (List Char) → List String
  | [], none => []
  | [], some acc => if acc.isEmpty then [] else [String.mk acc]
  | c :: cs, none => if c = '$' then phScan cs (some []) else phScan cs none
  | c :: cs, some acc =>
    if c.isDigit then phScan cs (some (acc ++ [c]))
    else if c = '$' then
      if acc.isEmpty then phScan cs (some []) else String.mk acc :: phScan cs (some [])
    else
      if acc.isEmpty then phScan cs none else String.mk acc :: phScan cs none

/-- The placeholders of a clause, left to right, each as its digit string. -/
def extractPlaceholders (s : String) : List String := phScan s.data none

/-- Whether a string is free of the placeholder marker `$`. -/
def noDollar (s : String) : Bool := !(s.data.any (fun c => c = '$'))

theorem noDollar_forall {s : String} (h : noDollar s = true) : ∀ c ∈ s.data, c ≠ '$' := by
  intro c hc
  simp only [noDollar, Bool.not_eq_true', List.any_eq_false, decide_eq_true_eq] at h
  exact h c hc

/-- Scanning past a `$`-free segment from the outside state changes nothing. -/
theorem phScan_append_of_noDollar (l r : List Char) (h : ∀ c ∈ l, c ≠ '$') :
    phScan (l ++ r) none = phScan r none := by
  induction l with
  | nil => rfl
  | cons c cs ih =>
    have hc : c ≠ '$' := h c (List.mem_cons_self ..)
    simp only [List.cons_append, phScan, if_neg hc]
    exact ih (fun x hx => h x (List.mem_cons_of_mem _ hx))

/-- Scanning digits inside a placeholder accumulates them. -/
theorem phScan_append_digits (ds : List Char) (h : ∀ c ∈ ds, c.isDigit = true) :
    ∀ (acc : List Char) (r : List Char),
      phScan (ds ++ r) (some acc) = phScan r (some (acc ++ ds)) := by
  induction ds with
  | nil => intro acc r; simp
  | cons c cs ih =>
    intro acc r
    have hc : c.isDigit = true := h c (List.mem_cons_self ..)
    simp only [List.cons_append, phScan, if_pos hc, List.append_eq]
    rw [ih (fun x hx => h x (List.mem_cons_of_mem _ hx))]
    simp

theorem isDigit_ne_dollar {c : Char} (h : c.isDigit = true) : c ≠ '$' := by
  rintro rfl
  simp [Char.isDigit] at h

/-! Digit facts about `Nat.repr`: its characters are decimal digits and there
is at least one of them. -/

theorem digitChar_isDigit (n : Nat) (h : n < 10) : (Nat.digitChar n).isDigit = true := by
  interval_cases n <;> decide

theorem toDigitsCore_all_digits (fuel : Nat) :
    ∀ (n : Nat) (ds : List Char), (∀ c ∈ ds, c.isDigit = true) →
      ∀ c ∈ Nat.toDigitsCore 10 fuel n ds, c.isDigit = true := by
  induction fuel with
  | zero => intro n ds h; simpa [Nat.toDigitsCore] using h
  | succ f ih =>
    intro n ds h c hc
    have hd : (Nat.digitChar (n % 10)).isDigit = true :=
      digitChar_isDigit _ (Nat.mod_lt _ (by omega))
    have hcons : ∀ x ∈ Nat.digitChar (n % 10) :: ds, x.isDigit = true := by
      intro x hx
      rcases List.mem_cons.mp hx with hx | hx
      · exact hx ▸ hd
      · exact h x hx
    simp only [Nat.toDigitsCore] at hc
    split at hc
    · exact hcons c hc
    · exact ih _ _ hcons c hc

theorem toDigitsCore_length_ge (fuel : Nat) :
    ∀ (n : Nat) (ds : List Char), ds.length ≤ (Nat.toDigitsCore 10 fuel n ds).length := by
  induction fuel with
  | zero => intro n ds; simp [Nat.toDigitsCore]
  | succ f ih =>
    intro n ds
    simp only [Nat.toDigitsCore]
    split
    · simp
    · calc ds.length ≤ (Nat.digitChar (n % 10) :: ds).length := by simp
        _ ≤ _ := ih _ _

theorem toDigitsCore_length_pos (fuel n : Nat) (ds : List Char) (h : 1 ≤ fuel) :
    ds.length + 1 ≤ (Nat.toDigitsCore 10 fuel n ds).length := by
  match fuel, h with
  | f + 1, _ =>
    simp only [Nat.toDigitsCore]
    split
    · simp
    · calc ds.length + 1 = (Nat.digitChar (n % 10) :: ds).length := by simp
        _ ≤ _ := toDigitsCore_length_ge f _ _

theorem repr_data_digits (n : Nat) : ∀ c ∈ (Nat.repr n).data, c.isDigit = true := by
  have : (Nat.repr n).data = Nat.toDigitsCore 10 (n + 1) n [] := rfl
  rw [this]
  exact toDigitsCore_all_digits _ _ _ (by simp)

theorem repr_data_ne_nil (n : Nat) : (Nat.repr n).data ≠ [] := by
  have h : (Nat.repr n).data = Nat.toDigitsCore 10 (n + 1) n [] := rfl
  have hlen := toDigitsCore_length_pos (n + 1) n [] (by omega)
  intro hnil
  rw [h] at hnil
  rw [hnil] at hlen
  simp at hlen

theorem repr_data_not_isEmpty (n : Nat) : ((Nat.repr n).data).isEmpty = false := by
  rw [List.isEmpty_eq_false_iff_exists_mem]
  rcases List.exists_mem_of_ne_nil _ (repr_data_ne_nil n) with ⟨c, hc⟩
  exact ⟨c, hc⟩

theorem mk_repr_data (n : Nat) : String.mk (Nat.repr n).data = Nat.repr n := rfl

/-! Small-step facts about the scanner, used to walk a clause. -/

theorem phScan_cons_skip (c : Char) (cs : List Char) (h : c ≠ '$') :
    phScan (c :: cs) none = phScan cs none := by
  simp [phScan, h]

theorem phScan_cons_dollar (cs : List Char) :
    phScan ('$' :: cs) none = phScan cs (some []) := by
  simp [phScan]

theorem phScan_cons_emit (c : Char) (cs acc : List Char)
    (h1 : c.isDigit = false) (h2 : c ≠ '$') (h3 : acc.isEmpty = false) :
    phScan (c :: cs) (some acc) = String.mk acc :: phScan cs none := by
  simp [phScan, h1, h2, h3]

theorem phScan_nil_emit (acc : List Char) (h : acc.isEmpty = false) :
    phScan [] (some acc) = [String.mk acc] := by
  simp [phScan, h]

/-! ## The numbering of the set clause -/

/-- The set-clause fragments written with an explicit starting ordinal,
mirroring what the index-based map produces from position `start` on. -/
def setColsFragmentsFrom (jsToSql : Obj) (start : Nat) : List String → List String
  | [] => []
  | k :: ks =>
    ("\"" ++ resolveCol jsToSql k ++ "\"=$" ++ Nat.repr start) ::
      setColsFragmentsFrom jsToSql (start + 1) ks

theorem mapIdx_shift_eq_from (j : Obj) (keys : List String) :
    ∀ s : Nat,
      keys.mapIdx (fun idx colName =>
        "\"" ++ resolveCol j colName ++ "\"=$" ++ Nat.repr (idx + s + 1)) =
      setColsFragmentsFrom j (s + 1) keys := by
  induction keys with
  | nil => intro s; simp [setColsFragmentsFrom]
  | cons k ks ih =>
    intro s
    rw [List.mapIdx_cons]
    simp only [setColsFragmentsFrom, Nat.zero_add]
    congr 1
    have hfun :
        (fun i (colName : String) =>
            "\"" ++ resolveCol j colName ++ "\"=$" ++ Nat.repr (i + 1 + s + 1)) =
          (fun i (colName : String) =>
            "\"" ++ resolveCol j colName ++ "\"=$" ++ Nat.repr (i + (s + 1) + 1)) := by
      funext i c
      have harith : i + 1 + s + 1 = i + (s + 1) + 1 := by omega
      rw [harith]
    rw [hfun]
    exact ih (s + 1)

theorem setColsFragments_eq_from (j : Obj) (keys : List String) :
    setColsFragments j keys = setColsFragmentsFrom j 1 keys := by
  have h := mapIdx_shift_eq_from j keys 0
  simpa [setColsFragments] using h

theorem phScan_repr_end (n : Nat) : phScan ((Nat.repr n).data) (some []) = [Nat.repr n] := by
  have h := phScan_append_digits (Nat.repr n).data (repr_data_digits n) [] []
  rw [List.append_nil] at h
  rw [h, List.nil_append, phScan_nil_emit _ (repr_data_not_isEmpty n), mk_repr_data]

theorem phScan_repr_stop (n : Nat) (c : Char) (r : List Char)
    (h1 : c.isDigit = false) (h2 : c ≠ '$') :
    phScan ((Nat.repr n).data ++ c :: r) (some []) = Nat.repr n :: phScan r none := by
  rw [phScan_append_digits _ (repr_data_digits n), List.nil_append,
    phScan_cons_emit c r _ h1 h2 (repr_data_not_isEmpty n), mk_repr_data]

theorem phScan_setColsFrom (j : Obj) :
    ∀ (keys : List String) (start : Nat),
      (∀ k ∈ keys, noDollar (resolveCol j k) = true) →
      phScan (joinSep ", " (setColsFragmentsFrom j start keys)).data none =
        (List.range keys.length).map (fun i => Nat.repr (start + i))
  | [], s, h => by simp [setColsFragmentsFrom, joinSep]; rfl
  | [k], s, h => by
    have hcol : ∀ c ∈ (resolveCol j k).data, c ≠ '$' := noDollar_forall (h k (by simp))
    have hpre : ∀ c ∈ ('"' :: ((resolveCol j k).data ++ ['"', '='])), c ≠ '$' := by
      intro c hc
      simp only [List.mem_cons, List.mem_append] at hc
      rcases hc with rfl | hc | hc
      · decide
      · exact hcol c hc
      · rcases hc with rfl | hc
        · decide
        · simp at hc; subst hc; decide
    have hdata : (joinSep ", " (setColsFragmentsFrom j s [k])).data =
        ('"' :: ((resolveCol j k).data ++ ['"', '='])) ++ '$' :: (Nat.repr s).data := by
      simp [setColsFragmentsFrom, joinSep, String.data_append]
    rw [hdata, phScan_append_of_noDollar _ _ hpre, phScan_cons_dollar, phScan_repr_end]
    have hl1 : ([k] : List String).length = 1 := rfl
    have hr1 : List.range 1 = [0] := rfl
    rw [hl1, hr1, List.map_cons, List.map_nil]
    simp
  | k1 :: k2 :: ks, s, h => by
    have hcol : ∀ c ∈ (resolveCol j k1).data, c ≠ '$' := noDollar_forall (h k1 (by simp))
    have hpre : ∀ c ∈ ('"' :: ((resolveCol j k1).data ++ ['"', '='])), c ≠ '$' := by
      intro c hc
      simp only [List.mem_cons, List.mem_append] at hc
      rcases hc with rfl | hc | hc
      · decide
      · exact hcol c hc
      · rcases hc with rfl | hc
        · decide
        · simp at hc; subst hc; decide
    have hdata : (joinSep ", " (setColsFragmentsFrom j s (k1 :: k2 :: ks))).data =
        ('"' :: ((resolveCol j k1).data ++ ['"', '='])) ++
          '$' :: ((Nat.repr s).data ++
            ',' :: ' ' :: (joinSep ", " (setColsFragmentsFrom j (s + 1) (k2 :: ks))).data) := by
      simp [setColsFragmentsFrom, joinSep, String.data_append]
    rw [hdata, phScan_append_of_noDollar _ _ hpre, phScan_cons_dollar,
      phScan_repr_stop s ',' _ (by decide) (by decide),
      phScan_cons_skip ' ' _ (by decide),
      phScan_setColsFrom j (k2 :: ks) (s + 1) (fun x hx => h x (List.mem_cons_of_mem _ hx))]
    have hlen : (k1 :: k2 :: ks).length = (k2 :: ks).length + 1 := rfl
    have hmap : List.map ((fun i => Nat.repr (s + i)) ∘ Nat.succ) (List.range (k2 :: ks).length) =
        List.map (fun i => Nat.repr (s + 1 + i)) (List.range (k2 :: ks).length) := by
      apply List.map_congr_left
      intro i hi
      simp only [Function.comp_apply, Nat.succ_eq_add_one]
      congr 1
      omega
    rw [hlen, List.range_succ_eq_map, List.map_cons, List.map_map, hmap]
    simp

theorem validateArgs_ok_of_obj (d j : Obj) (hne : d ≠ []) :
    validateArgs (.obj d) (.obj j) = .ok () := by
  have hlen : d.length ≠ 0 := fun h0 => hne (List.length_eq_zero.mp h0)
  simp [validateArgs, protoIsObjectLiteral, hlen]

theorem sqlForPartialUpdate_obj (d j : Obj) (hne : d ≠ []) :
    sqlForPartialUpdate (.obj d) (.obj j) =
      .ok ⟨joinSep ", " (setColsFragments j (d.map Prod.fst)), d.map Prod.snd⟩ := by
  simp [sqlForPartialUpdate, validateArgs_ok_of_obj d j hne]

/-- C1: for every non-empty plain-object update payload and every plain-object
field-name map over `$`-free column names, the builder succeeds; the clause's
placeholders read left to right are exactly `$1..$n`, one per payload entry in
insertion order, and the values are the payload's values in insertion order;
and the documented example produces clause `"first_name"=$1, "age"=$2` with
values `['Aliya', 32]`. -/
theorem sqlForPartialUpdate_placeholders_values :
    (∀ (d j : Obj), d ≠ [] →
      (∀ k ∈ d.map Prod.fst, noDollar (resolveCol j k) = true) →
      ∃ r, sqlForPartialUpdate (.obj d) (.obj j) = .ok r ∧
        extractPlaceholders r.setCols =
          (List.range d.length).map (fun i => Nat.repr (i + 1)) ∧
        r.values = d.map Prod.snd) ∧
    sqlForPartialUpdate (.obj [("firstName", .str "Aliya"), ("age", .num 32)])
        (.obj [("firstName", .str "first_name")]) =
      .ok ⟨"\"first_name\"=$1, \"age\"=$2", [.str "Aliya", .num 32]⟩ := by
  constructor
  · intro d j hne hnd
    refine ⟨⟨joinSep ", " (setColsFragments j (d.map Prod.fst)), d.map Prod.snd⟩,
      sqlForPartialUpdate_obj d j hne, ?_, rfl⟩
    show phScan (joinSep ", " (setColsFragments j (d.map Prod.fst))).data none = _
    rw [setColsFragments_eq_from, phScan_setColsFrom j (d.map Prod.fst) 1 hnd,
      List.length_map]
    apply List.map_congr_left
    intro i hi
    congr 1
    omega
  · rfl

/-- Closed instance of the C1 theorem at the documented example. -/
theorem sqlForPartialUpdate_placeholders_values_witness :
    ∃ r, sqlForPartialUpdate (.obj [("firstName", JsPrim.str "Aliya"), ("age", JsPrim.num 32)])
        (.obj [("firstName", JsPrim.str "first_name")]) = .ok r ∧
      extractPlaceholders r.setCols =
        (List.range ([("firstName", JsPrim.str "Aliya"), ("age", JsPrim.num 32)].length)).map
          (fun i => Nat.repr (i + 1)) ∧
      r.values = [JsPrim.str "Aliya", JsPrim.num 32] :=
  sqlForPartialUpdate_placeholders_values.1 _ _ (by decide) (by decide)

/-- C2 claim as stated is false: a key that is present in the field-name map
but mapped to a falsy value (here the empty string) is emitted as the key
itself, not as the mapped value. -/
theorem resolveCol_present_falsy_counterexample :
    sqlForPartialUpdate (.obj [("a", JsPrim.num 1)]) (.obj [("a", JsPrim.str "")]) =
      .ok ⟨"\"a\"=$1", [JsPrim.num 1]⟩ ∧
    ("\"a\"=$1" : String) ≠ "\"\"=$1" := by
  constructor
  · rfl
  · decide

/-- Reference column resolution following the amended claim's words: the
stringified mapped value when the key is mapped to a truthy value, the key
itself when the key is absent from the map or its mapped value is falsy. -/
def specResolve (fieldNameMap : Obj) (key : String) : String :=
  match List.lookup key fieldNameMap with
  | some v => if truthy v then jsToString v else key
  | none => key

theorem resolveCol_eq_specResolve (j : Obj) (k : String) :
    resolveCol j k = specResolve j k := by
  induction j with
  | nil => rfl
  | cons p rest ih =>
    obtain ⟨k2, v⟩ := p
    by_cases h : k2 = k
    · subst h
      simp [resolveCol, specResolve, getProp, List.lookup]
    · have hbeq : (k == k2) = false := by
        simp [Ne.symm h]
      simp only [resolveCol, specResolve, getProp, List.lookup, if_neg h, hbeq] at ih ⊢
      exact ih

/-- C2 amended: each emitted column name is the mapped value when the key is
mapped to a truthy value, and the key itself when the key is absent or its
mapped value is falsy. -/
theorem sqlForPartialUpdate_column_resolution (d j : Obj) (hne : d ≠ []) :
    ∃ r, sqlForPartialUpdate (.obj d) (.obj j) = .ok r ∧
      r.setCols = joinSep ", " ((d.map Prod.fst).mapIdx (fun idx key =>
        "\"" ++ specResolve j key ++ "\"=$" ++ Nat.repr (idx + 1))) := by
  refine ⟨_, sqlForPartialUpdate_obj d j hne, ?_⟩
  show joinSep ", " (setColsFragments j (d.map Prod.fst)) = _
  have hfun : (fun idx colName => "\"" ++ resolveCol j colName ++ "\"=$" ++ Nat.repr (idx + 1))
      = (fun idx key => "\"" ++ specResolve j key ++ "\"=$" ++ Nat.repr (idx + 1)) := by
    funext idx c
    rw [resolveCol_eq_specResolve]
  rw [setColsFragments, hfun]

/-- Whether a call failed with the repository's `BadRequestError`. -/
def isBadRequestErr : Except JsError SetResult → Bool
  | .error (.badRequest _) => true
  | _ => false

/-- C7 as stated is false for a null argument: `Object.getPrototypeOf(null)`
faults with a raw TypeError, not with the InvalidArgument `BadRequestError`. -/
theorem validateArgs_null_counterexample :
    sqlForPartialUpdate JsArg.null (.obj [("a", JsPrim.num 1)]) =
      .error (.typeError "Cannot convert undefined or null to object") ∧
    isBadRequestErr (sqlForPartialUpdate JsArg.null (.obj [("a", JsPrim.num 1)])) = false := by
  constructor
  · rfl
  · rfl

/-- C7 amended: omitted arguments fail with the "Missing args" `BadRequestError`;
an array in either position fails with the "Args must be object literals"
`BadRequestError`; a `null` in either position faults with a raw TypeError
(not a `BadRequestError`); an empty plain-object payload against a plain-object
map fails with the "No data" `BadRequestError`; and a non-empty plain-object
payload with a plain-object map succeeds. -/
theorem sqlForPartialUpdate_validation (d j : JsArg) :
    (d = .undefined ∨ j = .undefined →
      sqlForPartialUpdate d j = .error (.badRequest "Missing args")) ∧
    (∀ a, d = .array a → j ≠ .undefined →
      sqlForPartialUpdate d j = .error (.badRequest "Args must be object literals")) ∧
    (∀ es a, d = .obj es → j = .array a →
      sqlForPartialUpdate d j = .error (.badRequest "Args must be object literals")) ∧
    (d = .null → j ≠ .undefined →
      sqlForPartialUpdate d j = .error (.typeError "Cannot convert undefined or null to object")) ∧
    (∀ es, d = .obj es → j = .null →
      sqlForPartialUpdate d j = .error (.typeError "Cannot convert undefined or null to object")) ∧
    (∀ js, d = .obj [] → j = .obj js →
      sqlForPartialUpdate d j = .error (.badRequest "No data")) ∧
    (∀ es js, d = .obj es → j = .obj js → es ≠ [] →
      ∃ r, sqlForPartialUpdate d j = .ok r) := by
  refine ⟨?_, ?_, ?_, ?_, ?_, ?_, ?_⟩
  · rintro (rfl | rfl)
    · simp [sqlForPartialUpdate, validateArgs]
    · simp [sqlForPartialUpdate, validateArgs]
  · rintro a rfl hj
    simp [sqlForPartialUpdate, validateArgs, protoIsObjectLiteral, hj]
  · rintro es a rfl rfl
    simp [sqlForPartialUpdate, validateArgs, protoIsObjectLiteral]
  · rintro rfl hj
    simp [sqlForPartialUpdate, validateArgs, protoIsObjectLiteral, hj]
  · rintro es rfl rfl
    simp [sqlForPartialUpdate, validateArgs, protoIsObjectLiteral]
  · rintro js rfl rfl
    simp [sqlForPartialUpdate, validateArgs, protoIsObjectLiteral]
  · rintro es js rfl rfl hne
    exact ⟨_, sqlForPartialUpdate_obj es js hne⟩

/-- Closed instance of the C7 amended theorem: an array payload is rejected
as the "object literals" `BadRequestError`. -/
theorem sqlForPartialUpdate_validation_witness :
    sqlForPartialUpdate (.array []) (.obj []) =
      .error (.badRequest "Args must be object literals") :=
  (sqlForPartialUpdate_validation (.array []) (.obj [])).2.1 [] rfl (by decide)

/-- C9: `sqlForFilterBy` performs no argument validation of its own: an
undefined criterion map with a non-empty criteria object faults with a raw
TypeError from the `in` operator, and a null criteria argument faults with a
raw TypeError from `Object.keys` — neither is the documented NoValidCriteria
`BadRequestError`. -/
theorem sqlForFilterBy_no_validation :
    sqlForFilterBy (.obj [("name", JsPrim.str "Co")]) JsArg.undefined =
      .error (.typeError "Cannot use in operator to search in null or undefined") ∧
    sqlForFilterBy JsArg.null (.obj [("name", JsPrim.str "name ILIKE")]) =
      .error (.typeError "Cannot convert undefined or null to object") := by
  constructor
  · rfl
  · rfl

/-! ## Facts about the filter pipeline -/

theorem filterInMap_obj (m : Obj) :
    ∀ keys : List String, filterInMap keys (.obj m) =
      .ok (keys.filter (fun k => decide (k ∈ m.map Prod.fst)))
  | [] => rfl
  | k :: ks => by
    rw [filterInMap, keyInArg, filterInMap_obj m ks]
    by_cases h : k ∈ m.map Prod.fst
    · simp [h]
    · simp [h]

theorem getProp_mem (m : Obj) (k : String) (h : k ∈ m.map Prod.fst) :
    (k, getProp m k) ∈ m := by
  induction m with
  | nil => simp at h
  | cons p rest ih =>
    obtain ⟨k2, v⟩ := p
    by_cases hk : k2 = k
    · subst hk
      simp [getProp]
    · rw [getProp, if_neg hk]
      have : k ∈ rest.map Prod.fst := by
        simp only [List.map_cons, List.mem_cons] at h
        rcases h with h | h
        · exact absurd h.symm hk
        · exact h
      exact List.mem_cons_of_mem _ (ih this)

theorem getProp_middle_ne (l1 l2 : Obj) (k : String) (v : JsPrim) (c : String) (h : c ≠ k) :
    getProp (l1 ++ (k, v) :: l2) c = getProp (l1 ++ l2) c := by
  induction l1 with
  | nil =>
    show getProp ((k, v) :: l2) c = getProp l2 c
    rw [getProp, if_neg (fun h2 => h h2.symm)]
  | cons p rest ih =>
    obtain ⟨k2, v2⟩ := p
    by_cases hk : k2 = c
    · simp [getProp, hk]
    · simp only [List.cons_append, getProp, if_neg hk]
      exact ih

theorem getProp_middle_self (l1 l2 : Obj) (k : String) (v : JsPrim)
    (h : k ∉ l1.map Prod.fst) :
    getProp (l1 ++ (k, v) :: l2) k = v := by
  induction l1 with
  | nil => simp [getProp]
  | cons p rest ih =>
    obtain ⟨k2, v2⟩ := p
    have hk : k2 ≠ k := by
      intro hk
      exact h (by simp [hk])
    simp only [List.cons_append, getProp, if_neg hk]
    exact ih (fun hm => h (List.mem_cons_of_mem _ hm))

theorem condsMap_congr (c1 c2 : Obj) (mArg : JsArg) :
    ∀ (l : List String) (n : Nat), (∀ c ∈ l, getProp c1 c = getProp c2 c) →
      condsMap c1 mArg l n = condsMap c2 mArg l n
  | [], _, _ => rfl
  | c :: cs, n, h => by
    have hc : getProp c1 c = getProp c2 c := h c (List.mem_cons_self ..)
    have hrest : ∀ x ∈ cs, getProp c1 x = getProp c2 x :=
      fun x hx => h x (List.mem_cons_of_mem _ hx)
    rw [condsMap, condsMap, hc, condsMap_congr c1 c2 mArg cs n hrest,
      condsMap_congr c1 c2 mArg cs (n + 1) hrest]

theorem condsMap_length (centries : Obj) (mArg : JsArg) :
    ∀ (l : List String) (n : Nat) (conds : List String) (vals : List JsPrim),
      condsMap centries mArg l n = .ok (conds, vals) → conds.length = l.length
  | [], _, conds, vals => by
    rw [condsMap]
    intro h
    cases h
    rfl
  | c :: cs, n, conds, vals => by
    rw [condsMap]
    dsimp only
    split
    · cases hrec : condsMap centries mArg cs n with
      | error e => simp [hrec]
      | ok p =>
        obtain ⟨cds, vls⟩ := p
        simp only [hrec]
        intro h
        cases h
        have hl := condsMap_length centries mArg cs n cds _ hrec
        simp [hl]
    · split
      · cases hrec : condsMap centries mArg cs (n + 1) with
        | error e => simp [hrec]
        | ok p =>
          obtain ⟨cds, vls⟩ := p
          simp only [hrec]
          intro h
          cases h
          have hl := condsMap_length centries mArg cs (n + 1) cds _ hrec
          simp [hl]
      · intro h
        cases h

/-! ## The spec's positional description of the filter clause -/

/-- The scalar (placeholder-consuming) criteria of a list of survivors: those
whose value is not boolean-verbatim. -/
def scalarsIn (centries : Obj) (l : List String) : List String :=
  l.filter (fun c => !(isTrueLike (getProp centries c)))

/-- One fragment as the spec words it, given the ordinal to use if a
placeholder is emitted: verbatim for a true-like value; otherwise the fragment
followed by a placeholder, wrapped in a `CONCAT` substring pattern exactly when
the fragment contains `ILIKE`. -/
def specFragment (centries m : Obj) (n : Nat) (c : String) : String :=
  let sql := jsToString (getProp m c)
  if isTrueLike (getProp centries c) then sql
  else if strIncludes sql "ILIKE" then
    sql ++ " CONCAT('%', $" ++ Nat.repr n ++ "::text, '%')"
  else sql ++ " $" ++ Nat.repr n

/-- The fragments as the spec words them: the ordinal of the `i`-th survivor
is `start` plus the number of scalar survivors strictly before it (ordinals
advance only when a placeholder is actually emitted). -/
def specConds (centries m : Obj) (start : Nat) (survivors : List String) : List String :=
  survivors.mapIdx (fun i c =>
    specFragment centries m (start + (scalarsIn centries (survivors.take i)).length) c)

/-- The parameter values as the spec words them: the scalar survivors' values,
in order. -/
def specVals (centries : Obj) (survivors : List String) : List JsPrim :=
  (scalarsIn centries survivors).map (getProp centries)

theorem specConds_cons (centries m : Obj) (start : Nat) (c : String) (cs : List String) :
    specConds centries m start (c :: cs) =
      specFragment centries m start c ::
        specConds centries m (start + (if isTrueLike (getProp centries c) then 0 else 1)) cs := by
  rw [specConds, List.mapIdx_cons]
  congr 1
  rw [specConds]
  simp only [List.take_succ_cons]
  by_cases hc : isTrueLike (getProp centries c)
  · simp [scalarsIn, List.filter_cons, hc]
  · simp only [scalarsIn, List.filter_cons, hc, Bool.not_false, if_true, List.length_cons]
    have harith : ∀ i : Nat,
        start + ((List.filter (fun x => !isTrueLike (getProp centries x)) (List.take i cs)).length + 1) =
          (start + 1) + (List.filter (fun x => !isTrueLike (getProp centries x)) (List.take i cs)).length := by
      intro i
      omega
    simp only [harith]
    simp

theorem condsMap_eq_spec (centries m : Obj) :
    ∀ (survivors : List String) (start : Nat),
      (∀ c ∈ survivors, ∃ s, getProp m c = JsPrim.str s) →
      condsMap centries (.obj m) survivors start =
        .ok (specConds centries m start survivors, specVals centries survivors)
  | [], start, h => by
    rw [condsMap]
    rfl
  | c :: cs, start, h => by
    have hrest : ∀ x ∈ cs, ∃ s, getProp m x = JsPrim.str s :=
      fun x hx => h x (List.mem_cons_of_mem _ hx)
    obtain ⟨s, hs⟩ := h c (List.mem_cons_self ..)
    rw [specConds_cons]
    simp only [condsMap, getPropArg]
    by_cases hc : isTrueLike (getProp centries c)
    · rw [if_pos hc, condsMap_eq_spec centries m cs start hrest]
      simp [specFragment, hc, hs, specVals, scalarsIn, List.filter_cons]
    · rw [if_neg hc, hs]
      rw [condsMap_eq_spec centries m cs (start + 1) hrest]
      simp only [specFragment, hc, hs, jsToString]
      simp [specVals, scalarsIn, List.filter_cons, hc]

/-- Reference filter builder following the spec's words (§4.2): keep criteria
recognized by the map, failing with NoValidCriteria when none is; drop
false-like values; emit each surviving fragment verbatim (true-like) or with a
positional placeholder whose ordinal is one plus the number of scalar
survivors before it, wrapped in a `CONCAT` substring pattern exactly when the
fragment contains `ILIKE`; join survivors with `' AND '` under `'WHERE '`, the
empty string when every survivor was dropped; values are the scalar survivors'
values in order. -/
def whereClauseSpec (criteria m : Obj) : Except JsError FilterResult :=
  let valid := (criteria.map Prod.fst).filter (fun k => decide (k ∈ m.map Prod.fst))
  if valid = [] then .error (.badRequest "Could not filter by criteria provided")
  else
    let survivors := valid.filter (fun c => !(isFalseLike (getProp criteria c)))
    let conds := specConds criteria m 1 survivors
    .ok ⟨if conds = [] then "" else "WHERE " ++ joinSep " AND " conds,
         specVals criteria survivors⟩

theorem sqlForFilterBy_eq_whereClauseSpec (criteria m : Obj)
    (hm : ∀ p ∈ m, ∃ s, p.2 = JsPrim.str s) :
    sqlForFilterBy (.obj criteria) (.obj m) = whereClauseSpec criteria m := by
  have hsurv : ∀ c ∈ survivorsOf criteria
      ((criteria.map Prod.fst).filter (fun k => decide (k ∈ m.map Prod.fst))),
      ∃ s, getProp m c = JsPrim.str s := by
    intro c hcmem
    have hc2 : c ∈ (criteria.map Prod.fst).filter (fun k => decide (k ∈ m.map Prod.fst)) :=
      List.mem_of_mem_filter hcmem
    have hc3 : c ∈ m.map Prod.fst := by
      have := List.of_mem_filter hc2
      simpa using this
    obtain ⟨s, hs⟩ := hm _ (getProp_mem m c hc3)
    exact ⟨s, hs⟩
  simp only [sqlForFilterBy, entriesOf, whereClauseSpec]
  rw [filterInMap_obj]
  simp only [show ∀ v : List String,
      List.filter (fun c => !(isFalseLike (getProp criteria c))) v = survivorsOf criteria v
    from fun v => rfl]
  by_cases hv : (criteria.map Prod.fst).filter (fun k => decide (k ∈ m.map Prod.fst)) = []
  · simp [hv]
  · have hlen : ((criteria.map Prod.fst).filter (fun k => decide (k ∈ m.map Prod.fst))).length ≠ 0 :=
      fun h0 => hv (List.length_eq_zero.mp h0)
    rw [if_neg hlen, if_neg hv, condsMap_eq_spec criteria m _ 1 hsurv]
    cases hconds : specConds criteria m 1 (survivorsOf criteria
        ((criteria.map Prod.fst).filter (fun k => decide (k ∈ m.map Prod.fst)))) with
    | nil => simp [hconds]
    | cons a l => simp [hconds]

/-- Whether a value is a JavaScript string. -/
def isStr : JsPrim → Bool
  | .str _ => true
  | _ => false

theorem isStr_exists {v : JsPrim} (h : isStr v = true) : ∃ s, v = JsPrim.str s := by
  cases v <;> simp [isStr] at h ⊢

theorem getProp_isStr (m : Obj) (hm : ∀ p ∈ m, isStr p.2 = true) (c : String)
    (hc : c ∈ m.map Prod.fst) : ∃ s, getProp m c = JsPrim.str s :=
  isStr_exists (hm _ (getProp_mem m c hc))

theorem mem_filter_keys {c : String} {ks : List String} {m : Obj}
    (h : c ∈ ks.filter (fun k => decide (k ∈ m.map Prod.fst))) : c ∈ m.map Prod.fst := by
  have := List.of_mem_filter h
  simpa using this

/-- C3: over a string-valued criterion map the builder realizes the spec's
positional description (scalar criteria append their value and emit their
fragment with a placeholder, `CONCAT`-wrapped exactly when the fragment
contains `ILIKE`; survivors joined with `' AND '` under `'WHERE '`), and the
documented example returns the stated clause and values. -/
theorem sqlForFilterBy_scalar_emission :
    (∀ (criteria m : Obj), (∀ p ∈ m, isStr p.2 = true) →
      sqlForFilterBy (.obj criteria) (.obj m) = whereClauseSpec criteria m) ∧
    sqlForFilterBy (.obj [("name", JsPrim.str "Co"), ("minEmployees", JsPrim.num 10)])
        (.obj [("name", JsPrim.str "name ILIKE"), ("minEmployees", JsPrim.str "num_employees >="),
          ("maxEmployees", JsPrim.str "num_employees <=")]) =
      .ok ⟨"WHERE name ILIKE CONCAT('%', $1::text, '%') AND num_employees >= $2",
        [JsPrim.str "Co", JsPrim.num 10]⟩ := by
  constructor
  · intro criteria m hm
    exact sqlForFilterBy_eq_whereClauseSpec criteria m
      (fun p hp => isStr_exists (hm p hp))
  · rfl

/-- Closed instance of the C3 theorem at the documented example. -/
theorem sqlForFilterBy_scalar_emission_witness :
    sqlForFilterBy (.obj [("name", JsPrim.str "Co"), ("minEmployees", JsPrim.num 10)])
        (.obj [("name", JsPrim.str "name ILIKE"), ("minEmployees", JsPrim.str "num_employees >="),
          ("maxEmployees", JsPrim.str "num_employees <=")]) =
      whereClauseSpec [("name", JsPrim.str "Co"), ("minEmployees", JsPrim.num 10)]
        [("name", JsPrim.str "name ILIKE"), ("minEmployees", JsPrim.str "num_employees >="),
          ("maxEmployees", JsPrim.str "num_employees <=")] :=
  sqlForFilterBy_scalar_emission.1 _ _ (by decide)

/-- C4: a recognized criterion bound to `false` or `'false'` is dropped from
the output entirely — deleting that entry changes nothing except that the
builder no longer counts it as recognized — so when the drop rule eliminates
every recognized criterion the call succeeds with the empty clause and no
values, as in the `hasEquity: false` example. -/
theorem sqlForFilterBy_false_drop :
    (∀ (l1 l2 : Obj) (k : String) (v : JsPrim) (m : Obj),
      isFalseLike v = true → k ∈ m.map Prod.fst →
      k ∉ l1.map Prod.fst → k ∉ l2.map Prod.fst →
      (∀ p ∈ m, isStr p.2 = true) →
      sqlForFilterBy (.obj (l1 ++ (k, v) :: l2)) (.obj m) =
        (match sqlForFilterBy (.obj (l1 ++ l2)) (.obj m) with
         | .ok r => .ok r
         | .error _ => .ok ⟨"", []⟩)) ∧
    (∀ (criteria m : Obj),
      (∃ k ∈ criteria.map Prod.fst, k ∈ m.map Prod.fst) →
      (∀ k ∈ criteria.map Prod.fst, k ∈ m.map Prod.fst →
        isFalseLike (getProp criteria k) = true) →
      sqlForFilterBy (.obj criteria) (.obj m) = .ok ⟨"", []⟩) ∧
    sqlForFilterBy (.obj [("hasEquity", JsPrim.bool false)])
        (.obj [("hasEquity", JsPrim.str "equity > 0")]) = .ok ⟨"", []⟩ := by
  refine ⟨?_, ?_, ?_⟩
  · intro l1 l2 k v m hfalse hk h1 h2 hm
    have hkdec : (decide (k ∈ m.map Prod.fst)) = true := by simpa using hk
    have hkeys_with : (l1 ++ (k, v) :: l2).map Prod.fst =
        l1.map Prod.fst ++ k :: l2.map Prod.fst := by simp
    have hkeys_without : (l1 ++ l2).map Prod.fst =
        l1.map Prod.fst ++ l2.map Prod.fst := by simp
    simp only [sqlForFilterBy, entriesOf]
    rw [filterInMap_obj, filterInMap_obj, hkeys_with, hkeys_without,
      List.filter_append, List.filter_append, List.filter_cons]
    simp only [hkdec, if_true]
    set V1 := (l1.map Prod.fst).filter (fun c => decide (c ∈ m.map Prod.fst)) with hV1
    set V2 := (l2.map Prod.fst).filter (fun c => decide (c ∈ m.map Prod.fst)) with hV2
    have hne : (V1 ++ k :: V2).length ≠ 0 := by simp
    rw [if_neg hne]
    have hgetk : getProp (l1 ++ (k, v) :: l2) k = v := getProp_middle_self l1 l2 k v h1
    have hcne : ∀ c ∈ V1 ++ V2, c ≠ k := by
      intro c hc hck
      subst hck
      rcases List.mem_append.mp hc with hc2 | hc2
      · exact h1 (List.mem_of_mem_filter hc2)
      · exact h2 (List.mem_of_mem_filter hc2)
    have hgets : ∀ c ∈ V1 ++ V2, getProp (l1 ++ (k, v) :: l2) c = getProp (l1 ++ l2) c :=
      fun c hc => getProp_middle_ne l1 l2 k v c (hcne c hc)
    have hsurv : survivorsOf (l1 ++ (k, v) :: l2) (V1 ++ k :: V2) =
        survivorsOf (l1 ++ l2) (V1 ++ V2) := by
      unfold survivorsOf
      rw [List.filter_append, List.filter_cons]
      simp only [hgetk, hfalse, Bool.not_true, Bool.false_eq_true, if_false]
      rw [List.filter_append]
      congr 1
      · exact List.filter_congr
          (fun c hc => by rw [hgets c (List.mem_append.mpr (Or.inl hc))])
      · exact List.filter_congr
          (fun c hc => by rw [hgets c (List.mem_append.mpr (Or.inr hc))])
    rw [hsurv]
    have hsub : ∀ c ∈ survivorsOf (l1 ++ l2) (V1 ++ V2), c ∈ V1 ++ V2 :=
      fun c hc => List.mem_of_mem_filter hc
    rw [condsMap_congr (l1 ++ (k, v) :: l2) (l1 ++ l2) (.obj m) _ 1
      (fun c hc => hgets c (hsub c hc))]
    have hstr : ∀ c ∈ survivorsOf (l1 ++ l2) (V1 ++ V2), ∃ s, getProp m c = JsPrim.str s := by
      intro c hc
      have hc2 := hsub c hc
      have hc3 : c ∈ m.map Prod.fst := by
        rcases List.mem_append.mp hc2 with hcv | hcv
        · exact mem_filter_keys hcv
        · exact mem_filter_keys hcv
      exact getProp_isStr m hm c hc3
    rw [condsMap_eq_spec (l1 ++ l2) m _ 1 hstr]
    by_cases hw : V1 ++ V2 = []
    · rw [hw]
      simp [survivorsOf, specConds, specVals, scalarsIn]
    · have hlen2 : (V1 ++ V2).length ≠ 0 := fun h0 => hw (List.length_eq_zero.mp h0)
      rw [if_neg hlen2]
  · intro criteria m hex hall
    obtain ⟨k, hk_c, hk_m⟩ := hex
    simp only [sqlForFilterBy, entriesOf]
    rw [filterInMap_obj]
    dsimp only
    have hkmem : k ∈ (criteria.map Prod.fst).filter (fun c => decide (c ∈ m.map Prod.fst)) :=
      List.mem_filter.mpr ⟨hk_c, by simpa using hk_m⟩
    have hne : ((criteria.map Prod.fst).filter (fun c => decide (c ∈ m.map Prod.fst))).length ≠ 0 := by
      intro h0
      exact absurd (List.length_eq_zero.mp h0 ▸ hkmem) (List.not_mem_nil k)
    rw [if_neg hne]
    have hsurv : survivorsOf criteria
        ((criteria.map Prod.fst).filter (fun c => decide (c ∈ m.map Prod.fst))) = [] := by
      unfold survivorsOf
      rw [List.filter_eq_nil_iff]
      intro c hc
      have hc_c : c ∈ criteria.map Prod.fst := List.mem_of_mem_filter hc
      have hc_m : c ∈ m.map Prod.fst := mem_filter_keys hc
      simp [hall c hc_c hc_m]
    rw [hsurv]
    rfl
  · rfl

/-- Closed instance of the C4 theorem: dropping a false-valued recognized
criterion leaves the remaining criterion's output untouched. -/
theorem sqlForFilterBy_false_drop_witness :
    sqlForFilterBy (.obj [("minEmployees", JsPrim.num 5), ("hasEquity", JsPrim.bool false)])
        (.obj [("minEmployees", JsPrim.str "num_employees >="),
          ("hasEquity", JsPrim.str "equity > 0")]) =
      (match sqlForFilterBy (.obj [("minEmployees", JsPrim.num 5)])
          (.obj [("minEmployees", JsPrim.str "num_employees >="),
            ("hasEquity", JsPrim.str "equity > 0")]) with
       | .ok r => .ok r
       | .error _ => .ok ⟨"", []⟩) :=
  sqlForFilterBy_false_drop.1 [("minEmployees", JsPrim.num 5)] [] "hasEquity"
    (JsPrim.bool false) _ (by decide) (by decide) (by decide) (by decide) (by decide)

theorem getProp_append_left (l1 rest : Obj) (c : String) (h : c ∈ l1.map Prod.fst) :
    getProp (l1 ++ rest) c = getProp l1 c := by
  induction l1 with
  | nil => simp at h
  | cons p l ih =>
    obtain ⟨k2, v2⟩ := p
    by_cases hk : k2 = c
    · simp [getProp, hk]
    · simp only [List.cons_append, getProp, if_neg hk]
      have : c ∈ l.map Prod.fst := by
        simp only [List.map_cons, List.mem_cons] at h
        rcases h with h | h
        · exact absurd h.symm hk
        · exact h
      exact ih this

theorem isFalseLike_of_isTrueLike {v : JsPrim} (h : isTrueLike v = true) :
    isFalseLike v = false := by
  cases v with
  | bool b => cases b <;> simp_all [isTrueLike, isFalseLike]
  | str s =>
    simp only [isTrueLike, Bool.or_eq_true, beq_iff_eq] at h
    rcases h with h | h
    · cases h
    · cases h
      rfl
  | _ => simp_all [isTrueLike]

theorem condsMap_insert_true (centries m : Obj) (k : String)
    (hk : isTrueLike (getProp centries k) = true) :
    ∀ (xs ys : List String) (n : Nat),
      condsMap centries (.obj m) (xs ++ k :: ys) n =
        (match condsMap centries (.obj m) (xs ++ ys) n with
         | .ok (conds, vals) =>
             .ok (conds.insertIdx xs.length (jsToString (getProp m k)), vals)
         | .error e => .error e)
  | [], ys, n => by
    simp only [List.nil_append, condsMap, getPropArg, if_pos hk]
    cases hrec : condsMap centries (.obj m) ys n with
    | error e => rfl
    | ok p =>
      obtain ⟨conds, vals⟩ := p
      simp [List.insertIdx]
  | x :: xs, ys, n => by
    simp only [List.cons_append, condsMap, getPropArg, List.append_eq]
    by_cases hx : isTrueLike (getProp centries x)
    · rw [if_pos hx, if_pos hx, condsMap_insert_true centries m k hk xs ys n]
      cases hrec : condsMap centries (.obj m) (xs ++ ys) n with
      | error e => rfl
      | ok p =>
        obtain ⟨conds, vals⟩ := p
        simp [List.insertIdx_succ_cons]
    · rw [if_neg hx, if_neg hx]
      cases hsql : getProp m x with
      | str s =>
        rw [condsMap_insert_true centries m k hk xs ys (n + 1)]
        cases hrec : condsMap centries (.obj m) (xs ++ ys) (n + 1) with
        | error e => rfl
        | ok p =>
          obtain ⟨conds, vals⟩ := p
          simp [List.insertIdx_succ_cons]
      | undefined => rfl
      | null => rfl
      | bool b => rfl
      | num i => rfl

/-- C5: a recognized criterion bound to `true` or `'true'` contributes its
fragment verbatim — inserting it adds exactly that fragment at the matching
position and changes nothing else: no value is appended and the placeholder
ordinals of all other criteria are unchanged — and the `hasEquity: true`
example yields `WHERE equity > 0` with no values. -/
theorem sqlForFilterBy_true_verbatim :
    (∀ (l1 l2 : Obj) (k : String) (v : JsPrim) (m : Obj) (s : String)
        (conds : List String) (vals : List JsPrim),
      isTrueLike v = true → getProp m k = JsPrim.str s →
      k ∈ m.map Prod.fst →
      k ∉ l1.map Prod.fst → k ∉ l2.map Prod.fst →
      condsValsOf (l1 ++ l2) (.obj m) = .ok (conds, vals) →
      condsValsOf (l1 ++ (k, v) :: l2) (.obj m) =
        .ok (conds.insertIdx
          (survivorsOf l1 ((l1.map Prod.fst).filter
            (fun c => decide (c ∈ m.map Prod.fst)))).length s, vals)) ∧
    sqlForFilterBy (.obj [("hasEquity", JsPrim.bool true)])
        (.obj [("hasEquity", JsPrim.str "equity > 0")]) =
      .ok ⟨"WHERE equity > 0", []⟩ := by
  constructor
  · intro l1 l2 k v m s conds vals htrue hs hk h1 h2 hwo
    have hkdec : (decide (k ∈ m.map Prod.fst)) = true := by simpa using hk
    have hkeys_with : (l1 ++ (k, v) :: l2).map Prod.fst =
        l1.map Prod.fst ++ k :: l2.map Prod.fst := by simp
    have hkeys_without : (l1 ++ l2).map Prod.fst =
        l1.map Prod.fst ++ l2.map Prod.fst := by simp
    simp only [condsValsOf] at hwo ⊢
    rw [filterInMap_obj] at hwo
    rw [filterInMap_obj]
    dsimp only at hwo ⊢
    rw [hkeys_with, List.filter_append, List.filter_cons]
    rw [hkeys_without, List.filter_append] at hwo
    simp only [hkdec, if_true]
    set V1 := (l1.map Prod.fst).filter (fun c => decide (c ∈ m.map Prod.fst)) with hV1
    set V2 := (l2.map Prod.fst).filter (fun c => decide (c ∈ m.map Prod.fst)) with hV2
    have hgetk : getProp (l1 ++ (k, v) :: l2) k = v := getProp_middle_self l1 l2 k v h1
    have hcne : ∀ c ∈ V1 ++ V2, c ≠ k := by
      intro c hc hck
      subst hck
      rcases List.mem_append.mp hc with hc2 | hc2
      · exact h1 (List.mem_of_mem_filter hc2)
      · exact h2 (List.mem_of_mem_filter hc2)
    have hgets : ∀ c ∈ V1 ++ V2, getProp (l1 ++ (k, v) :: l2) c = getProp (l1 ++ l2) c :=
      fun c hc => getProp_middle_ne l1 l2 k v c (hcne c hc)
    have hsurv_wo : survivorsOf (l1 ++ l2) (V1 ++ V2) =
        survivorsOf (l1 ++ l2) V1 ++ survivorsOf (l1 ++ l2) V2 := by
      unfold survivorsOf
      rw [List.filter_append]
    have hsurv_with : survivorsOf (l1 ++ (k, v) :: l2) (V1 ++ k :: V2) =
        survivorsOf (l1 ++ l2) V1 ++ k :: survivorsOf (l1 ++ l2) V2 := by
      unfold survivorsOf
      rw [List.filter_append, List.filter_cons]
      have hkp : (!(isFalseLike (getProp (l1 ++ (k, v) :: l2) k))) = true := by
        rw [hgetk, isFalseLike_of_isTrueLike htrue]
        rfl
      simp only [hkp, if_true]
      congr 1
      · exact List.filter_congr
          (fun c hc => by rw [hgets c (List.mem_append.mpr (Or.inl hc))])
      · congr 1
        exact List.filter_congr
          (fun c hc => by rw [hgets c (List.mem_append.mpr (Or.inr hc))])
    rw [hsurv_with, condsMap_insert_true (l1 ++ (k, v) :: l2) m k
      (by rw [hgetk]; exact htrue) _ _ 1]
    have hcongr : condsMap (l1 ++ (k, v) :: l2) (.obj m)
        (survivorsOf (l1 ++ l2) V1 ++ survivorsOf (l1 ++ l2) V2) 1 =
        condsMap (l1 ++ l2) (.obj m)
        (survivorsOf (l1 ++ l2) V1 ++ survivorsOf (l1 ++ l2) V2) 1 := by
      apply condsMap_congr
      intro c hc
      apply hgets
      rcases List.mem_append.mp hc with hc2 | hc2
      · exact List.mem_append.mpr (Or.inl (List.mem_of_mem_filter hc2))
      · exact List.mem_append.mpr (Or.inr (List.mem_of_mem_filter hc2))
    rw [hcongr, ← hsurv_wo, hwo, hs]
    have hlen : (survivorsOf (l1 ++ l2) V1).length = (survivorsOf l1 V1).length := by
      unfold survivorsOf
      rw [List.filter_congr (fun c hc =>
        by rw [getProp_append_left l1 l2 c (List.mem_of_mem_filter hc)])]
    rw [hlen]
    rfl
  · rfl

/-- Closed instance of the C5 theorem: inserting `hasEquity: true` adds the
`equity > 0` fragment verbatim after the surviving criterion and leaves the
values untouched. -/
theorem sqlForFilterBy_true_verbatim_witness :
    condsValsOf [("minEmployees", JsPrim.num 3), ("hasEquity", JsPrim.bool true)]
        (.obj [("minEmployees", JsPrim.str "num_employees >="),
          ("hasEquity", JsPrim.str "equity > 0")]) =
      .ok ((["num_employees >= $1"].insertIdx
        (survivorsOf ([("minEmployees", JsPrim.num 3)] : Obj)
          ((([("minEmployees", JsPrim.num 3)] : Obj).map Prod.fst).filter
            (fun c => decide (c ∈ ([("minEmployees", JsPrim.str "num_employees >="),
              ("hasEquity", JsPrim.str "equity > 0")] : Obj).map Prod.fst)))).length
        "equity > 0", [JsPrim.num 3])) :=
  sqlForFilterBy_true_verbatim.1 [("minEmployees", JsPrim.num 3)] [] "hasEquity"
    (JsPrim.bool true) _ "equity > 0" ["num_employees >= $1"] [JsPrim.num 3]
    (by decide) (by decide) (by decide) (by decide) (by decide) rfl

theorem condsMap_error_typeError (centries : Obj) (mArg : JsArg) :
    ∀ (l : List String) (n : Nat) (e : JsError),
      condsMap centries mArg l n = .error e → ∃ msg, e = JsError.typeError msg
  | [], n, e => by
    rw [condsMap]
    intro h
    cases h
  | c :: cs, n, e => by
    rw [condsMap]
    dsimp only
    split
    · cases hrec : condsMap centries mArg cs n with
      | error e2 =>
        simp only [hrec]
        intro h
        cases h
        exact condsMap_error_typeError centries mArg cs n e hrec
      | ok p =>
        obtain ⟨conds, vals⟩ := p
        simp only [hrec]
        intro h
        cases h
    · split
      · cases hrec : condsMap centries mArg cs (n + 1) with
        | error e2 =>
          simp only [hrec]
          intro h
          cases h
          exact condsMap_error_typeError centries mArg cs (n + 1) e hrec
        | ok p =>
          obtain ⟨conds, vals⟩ := p
          simp only [hrec]
          intro h
          cases h
      · intro h
        cases h
        exact ⟨"sql.includes is not a function", rfl⟩

/-- C6: the builder fails with the NoValidCriteria `BadRequestError` exactly
when no criteria key is a key of the criterion map, and a criterion whose key
the map does not recognize is ignored: removing it leaves the result
unchanged. -/
theorem sqlForFilterBy_no_valid_criteria :
    (∀ (criteria m : Obj),
      sqlForFilterBy (.obj criteria) (.obj m) =
          .error (.badRequest "Could not filter by criteria provided") ↔
        ∀ k ∈ criteria.map Prod.fst, k ∉ m.map Prod.fst) ∧
    (∀ (l1 l2 : Obj) (k : String) (v : JsPrim) (m : Obj),
      k ∉ m.map Prod.fst →
      sqlForFilterBy (.obj (l1 ++ (k, v) :: l2)) (.obj m) =
        sqlForFilterBy (.obj (l1 ++ l2)) (.obj m)) := by
  constructor
  · intro criteria m
    simp only [sqlForFilterBy, entriesOf]
    rw [filterInMap_obj]
    dsimp only
    constructor
    · intro h k hkc hkm
      have hkmem : k ∈ (criteria.map Prod.fst).filter
          (fun c => decide (c ∈ m.map Prod.fst)) :=
        List.mem_filter.mpr ⟨hkc, by simpa using hkm⟩
      have hlen : ((criteria.map Prod.fst).filter
          (fun c => decide (c ∈ m.map Prod.fst))).length ≠ 0 := by
        intro h0
        exact absurd (List.length_eq_zero.mp h0 ▸ hkmem) (List.not_mem_nil k)
      rw [if_neg hlen] at h
      cases hcm : condsMap criteria (.obj m) (survivorsOf criteria
          ((criteria.map Prod.fst).filter (fun c => decide (c ∈ m.map Prod.fst)))) 1 with
      | error e =>
        rw [hcm] at h
        cases h
        obtain ⟨msg, hmsg⟩ := condsMap_error_typeError criteria (.obj m) _ 1 _ hcm
        cases hmsg
      | ok p =>
        obtain ⟨conds, vals⟩ := p
        rw [hcm] at h
        cases h
    · intro hall
      have hv : (criteria.map Prod.fst).filter
          (fun c => decide (c ∈ m.map Prod.fst)) = [] :=
        List.filter_eq_nil_iff.mpr (fun k hk => by simpa using hall k hk)
      rw [hv]
      simp
  · intro l1 l2 k v m hk
    have hkdec : (decide (k ∈ m.map Prod.fst)) = false := by simpa using hk
    simp only [sqlForFilterBy, entriesOf]
    rw [filterInMap_obj, filterInMap_obj,
      show (l1 ++ (k, v) :: l2).map Prod.fst = l1.map Prod.fst ++ k :: l2.map Prod.fst
        from by simp,
      show (l1 ++ l2).map Prod.fst = l1.map Prod.fst ++ l2.map Prod.fst from by simp,
      List.filter_append, List.filter_append, List.filter_cons]
    simp only [hkdec, Bool.false_eq_true, if_false]
    set V1 := (l1.map Prod.fst).filter (fun c => decide (c ∈ m.map Prod.fst)) with hV1
    set V2 := (l2.map Prod.fst).filter (fun c => decide (c ∈ m.map Prod.fst)) with hV2
    have hcne : ∀ c ∈ V1 ++ V2, c ≠ k := by
      intro c hc hck
      subst hck
      rcases List.mem_append.mp hc with hc2 | hc2
      · exact hk (mem_filter_keys hc2)
      · exact hk (mem_filter_keys hc2)
    have hgets : ∀ c ∈ V1 ++ V2, getProp (l1 ++ (k, v) :: l2) c = getProp (l1 ++ l2) c :=
      fun c hc => getProp_middle_ne l1 l2 k v c (hcne c hc)
    have hsurv : survivorsOf (l1 ++ (k, v) :: l2) (V1 ++ V2) =
        survivorsOf (l1 ++ l2) (V1 ++ V2) := by
      unfold survivorsOf
      exact List.filter_congr (fun c hc => by rw [hgets c hc])
    have hmem_surv : ∀ c ∈ survivorsOf (l1 ++ l2) (V1 ++ V2), c ∈ V1 ++ V2 := by
      intro c hc
      unfold survivorsOf at hc
      exact List.mem_of_mem_filter hc
    rw [hsurv, condsMap_congr (l1 ++ (k, v) :: l2) (l1 ++ l2) (.obj m)
      (survivorsOf (l1 ++ l2) (V1 ++ V2)) 1
      (fun c hc => hgets c (hmem_surv c hc))]

/-- Closed instance of the C6 theorem: a criteria object sharing no key with
the map fails with the NoValidCriteria `BadRequestError`. -/
theorem sqlForFilterBy_no_valid_criteria_witness :
    sqlForFilterBy (.obj [("age", JsPrim.num 99)])
        (.obj [("name", JsPrim.str "name ILIKE")]) =
      .error (.badRequest "Could not filter by criteria provided") :=
  (sqlForFilterBy_no_valid_criteria.1 [("age", JsPrim.num 99)]
    [("name", JsPrim.str "name ILIKE")]).mpr (by decide)

theorem condsMap_vals (centries : Obj) (mArg : JsArg) :
    ∀ (l : List String) (n : Nat) (conds : List String) (vals : List JsPrim),
      condsMap centries mArg l n = .ok (conds, vals) →
      ∀ v ∈ vals, ∃ c ∈ l, v = getProp centries c ∧ isTrueLike v = false
  | [], n, conds, vals => by
    rw [condsMap]
    intro h
    cases h
    intro v hv
    cases hv
  | c :: cs, n, conds, vals => by
    rw [condsMap]
    dsimp only
    split
    · cases hrec : condsMap centries mArg cs n with
      | error e => simp [hrec]
      | ok p =>
        obtain ⟨cds, vls⟩ := p
        simp only [hrec]
        intro h
        cases h
        intro v hv
        obtain ⟨c2, hc2, hvg, hvt⟩ := condsMap_vals centries mArg cs n cds _ hrec v hv
        exact ⟨c2, List.mem_cons_of_mem _ hc2, hvg, hvt⟩
    · rename_i hx
      split
      · rename_i s hs
        cases hrec : condsMap centries mArg cs (n + 1) with
        | error e => simp [hrec]
        | ok p =>
          obtain ⟨cds, vls⟩ := p
          simp only [hrec]
          intro h
          cases h
          intro v hv
          rcases List.mem_cons.mp hv with hv | hv
          · subst hv
            exact ⟨c, List.mem_cons_self .., rfl, by simpa using hx⟩
          · obtain ⟨c2, hc2, hvg, hvt⟩ := condsMap_vals centries mArg cs (n + 1) cds _ hrec v hv
            exact ⟨c2, List.mem_cons_of_mem _ hc2, hvg, hvt⟩
      · intro h
        cases h

/-- C10: every value a successful `sqlForFilterBy` call returns is none of
`true`, `false`, `'true'`, `'false'`, and is a property value of the criteria
payload, taken verbatim. -/
theorem sqlForFilterBy_values_not_boolean (criteria m : Obj) (r : FilterResult)
    (hok : sqlForFilterBy (.obj criteria) (.obj m) = .ok r) :
    ∀ v ∈ r.values, v ≠ JsPrim.bool true ∧ v ≠ JsPrim.bool false ∧
      v ≠ JsPrim.str "true" ∧ v ≠ JsPrim.str "false" ∧
      v ∈ criteria.map Prod.snd := by
  simp only [sqlForFilterBy, entriesOf] at hok
  rw [filterInMap_obj] at hok
  dsimp only at hok
  by_cases hlen : ((criteria.map Prod.fst).filter
      (fun c => decide (c ∈ m.map Prod.fst))).length = 0
  · rw [if_pos hlen] at hok
    cases hok
  · rw [if_neg hlen] at hok
    cases hcm : condsMap criteria (.obj m) (survivorsOf criteria
        ((criteria.map Prod.fst).filter (fun c => decide (c ∈ m.map Prod.fst)))) 1 with
    | error e =>
      rw [hcm] at hok
      cases hok
    | ok p =>
      obtain ⟨conds, vals⟩ := p
      rw [hcm] at hok
      cases hok
      intro v hv
      obtain ⟨c, hc, hvg, hvt⟩ := condsMap_vals criteria (.obj m) _ 1 conds vals hcm v hv
      have hcv : c ∈ (criteria.map Prod.fst).filter
          (fun x => decide (x ∈ m.map Prod.fst)) := by
        unfold survivorsOf at hc
        exact List.mem_of_mem_filter hc
      have hcf : isFalseLike (getProp criteria c) = false := by
        unfold survivorsOf at hc
        have := List.of_mem_filter hc
        simpa using this
      have hvf : isFalseLike v = false := hvg ▸ hcf
      have hckeys : c ∈ criteria.map Prod.fst := List.mem_of_mem_filter hcv
      have hmem : v ∈ criteria.map Prod.snd := by
        subst hvg
        exact List.mem_map.mpr ⟨(c, getProp criteria c), getProp_mem criteria c hckeys, rfl⟩
      refine ⟨?_, ?_, ?_, ?_, hmem⟩
      · intro hveq
        subst hveq
        simp [isTrueLike] at hvt
      · intro hveq
        subst hveq
        simp [isFalseLike] at hvf
      · intro hveq
        subst hveq
        simp [isTrueLike] at hvt
      · intro hveq
        subst hveq
        simp [isFalseLike] at hvf

/-- Closed instance of the C10 theorem at a successful concrete call and a
concrete returned value. -/
theorem sqlForFilterBy_values_not_boolean_witness :
    JsPrim.str "Co" ≠ JsPrim.bool true ∧ JsPrim.str "Co" ≠ JsPrim.bool false ∧
    JsPrim.str "Co" ≠ JsPrim.str "true" ∧ JsPrim.str "Co" ≠ JsPrim.str "false" ∧
    JsPrim.str "Co" ∈ ([("name", JsPrim.str "Co")] : Obj).map Prod.snd :=
  sqlForFilterBy_values_not_boolean [("name", JsPrim.str "Co")]
    [("name", JsPrim.str "name ILIKE")]
    (FilterResult.mk "WHERE name ILIKE CONCAT('%', $1::text, '%')" [JsPrim.str "Co"])
    rfl (JsPrim.str "Co") (by decide)

theorem noDollar_append_chars {a b : List Char} (ha : ∀ c ∈ a, c ≠ '$')
    (hb : ∀ c ∈ b, c ≠ '$') : ∀ c ∈ a ++ b, c ≠ '$' := by
  intro c hc
  rcases List.mem_append.mp hc with h | h
  · exact ha c h
  · exact hb c h

theorem phScan_noDollar_nil (l : List Char) (h : ∀ c ∈ l, c ≠ '$') :
    phScan l none = [] := by
  have h2 := phScan_append_of_noDollar l [] h
  simpa using h2

theorem phScan_bare_frag_end (sql : String) (h : noDollar sql = true) (n : Nat) :
    phScan ((sql ++ " $" ++ Nat.repr n).data) none = [Nat.repr n] := by
  have hd : (sql ++ " $" ++ Nat.repr n).data =
      (sql.data ++ [' ']) ++ '$' :: (Nat.repr n).data := by
    simp [String.data_append]
  rw [hd, phScan_append_of_noDollar _ _
      (noDollar_append_chars (noDollar_forall h) (by decide)),
    phScan_cons_dollar, phScan_repr_end]

theorem phScan_bare_frag_cons (sql : String) (h : noDollar sql = true) (n : Nat)
    (c : Char) (r : List Char) (h1 : c.isDigit = false) (h2 : c ≠ '$') :
    phScan ((sql ++ " $" ++ Nat.repr n).data ++ c :: r) none =
      Nat.repr n :: phScan r none := by
  have hd : (sql ++ " $" ++ Nat.repr n).data ++ c :: r =
      (sql.data ++ [' ']) ++ '$' :: ((Nat.repr n).data ++ c :: r) := by
    simp [String.data_append]
  rw [hd, phScan_append_of_noDollar _ _
      (noDollar_append_chars (noDollar_forall h) (by decide)),
    phScan_cons_dollar, phScan_repr_stop n c r h1 h2]

theorem phScan_ilike_frag (sql : String) (h : noDollar sql = true) (n : Nat)
    (r : List Char) :
    phScan ((sql ++ " CONCAT('%', $" ++ Nat.repr n ++ "::text, '%')").data ++ r) none =
      Nat.repr n :: phScan r none := by
  have hd : (sql ++ " CONCAT('%', $" ++ Nat.repr n ++ "::text, '%')").data ++ r =
      (sql.data ++ (" CONCAT('%', " : String).data) ++
        '$' :: ((Nat.repr n).data ++ ':' :: ((":text, '%')" : String).data ++ r)) := by
    simp [String.data_append]
  rw [hd, phScan_append_of_noDollar _ _
      (noDollar_append_chars (noDollar_forall h) (by decide)),
    phScan_cons_dollar, phScan_repr_stop n ':' _ (by decide) (by decide),
    phScan_append_of_noDollar _ _ (by decide)]

theorem range_map_succ_repr (start len : Nat) :
    (List.range (len + 1)).map (fun i => Nat.repr (start + i)) =
      Nat.repr start :: (List.range len).map (fun i => Nat.repr (start + 1 + i)) := by
  rw [List.range_succ_eq_map, List.map_cons, List.map_map]
  have hmap : List.map ((fun i => Nat.repr (start + i)) ∘ Nat.succ) (List.range len) =
      List.map (fun i => Nat.repr (start + 1 + i)) (List.range len) := by
    apply List.map_congr_left
    intro i hi
    simp only [Function.comp_apply, Nat.succ_eq_add_one]
    congr 1
    omega
  rw [hmap]
  simp

theorem condsMap_nil_vals (centries : Obj) (mArg : JsArg) (l : List String) (n : Nat)
    (vals : List JsPrim) (h : condsMap centries mArg l n = .ok ([], vals)) : vals = [] := by
  have h0 := condsMap_length centries mArg l n [] vals h
  have hl : l = [] := List.length_eq_zero.mp (by simpa using h0.symm)
  subst hl
  rw [condsMap] at h
  cases h
  rfl

theorem phScan_condsMap (centries m : Obj) :
    ∀ (l : List String) (start : Nat) (conds : List String) (vals : List JsPrim),
      (∀ c ∈ l, noDollar (jsToString (getProp m c)) = true) →
      condsMap centries (.obj m) l start = .ok (conds, vals) →
      phScan (joinSep " AND " conds).data none =
        (List.range vals.length).map (fun i => Nat.repr (start + i))
  | [], start, conds, vals => by
    rw [condsMap]
    intro hnd h
    cases h
    rfl
  | c :: cs, start, conds, vals => by
    intro hnd h
    have hndc : noDollar (jsToString (getProp m c)) = true := hnd c (List.mem_cons_self ..)
    have hndcs : ∀ x ∈ cs, noDollar (jsToString (getProp m x)) = true :=
      fun x hx => hnd x (List.mem_cons_of_mem _ hx)
    rw [condsMap] at h
    dsimp only at h
    simp only [getPropArg] at h
    by_cases hx : isTrueLike (getProp centries c)
    · rw [if_pos hx] at h
      cases hrec : condsMap centries (.obj m) cs start with
      | error e =>
        rw [hrec] at h
        cases h
      | ok p =>
        obtain ⟨cds, vls⟩ := p
        rw [hrec] at h
        cases h
        cases cds with
        | nil =>
          have hvls := condsMap_nil_vals centries (.obj m) cs start _ hrec
          subst hvls
          show phScan (jsToString (getProp m c)).data none = _
          rw [phScan_noDollar_nil _ (noDollar_forall hndc)]
          rfl
        | cons d ds =>
          have hd2 : (joinSep " AND " (jsToString (getProp m c) :: d :: ds)).data =
              (jsToString (getProp m c)).data ++
                ((" AND " : String).data ++ (joinSep " AND " (d :: ds)).data) := by
            simp [joinSep, String.data_append]
          rw [hd2, phScan_append_of_noDollar _ _ (noDollar_forall hndc),
            phScan_append_of_noDollar _ _ (by decide)]
          exact phScan_condsMap centries m cs start (d :: ds) _ hndcs hrec
    · rw [if_neg hx] at h
      cases hsql : getProp m c with
      | str s =>
        rw [hsql] at h
        dsimp only at h
        cases hrec : condsMap centries (.obj m) cs (start + 1) with
        | error e =>
          rw [hrec] at h
          cases h
        | ok p =>
          obtain ⟨cds, vls⟩ := p
          rw [hrec] at h
          cases h
          have hnds : noDollar s = true := by
            rw [hsql] at hndc
            simpa [jsToString] using hndc
          by_cases hil : strIncludes s "ILIKE"
          · rw [if_pos hil]
            cases cds with
            | nil =>
              have hvls := condsMap_nil_vals centries (.obj m) cs (start + 1) _ hrec
              subst hvls
              have hfrag := phScan_ilike_frag s hnds start []
              rw [List.append_nil] at hfrag
              show phScan (s ++ " CONCAT('%', $" ++ Nat.repr start ++ "::text, '%')").data none = _
              rw [hfrag]
              rfl
            | cons d ds =>
              have hd2 : (joinSep " AND "
                  ((s ++ " CONCAT('%', $" ++ Nat.repr start ++ "::text, '%')") :: d :: ds)).data =
                  (s ++ " CONCAT('%', $" ++ Nat.repr start ++ "::text, '%')").data ++
                    ((" AND " : String).data ++ (joinSep " AND " (d :: ds)).data) := by
                simp [joinSep, String.data_append]
              rw [hd2, phScan_ilike_frag s hnds start _,
                phScan_append_of_noDollar _ _ (by decide),
                phScan_condsMap centries m cs (start + 1) (d :: ds) _ hndcs hrec]
              rw [List.length_cons, range_map_succ_repr]
          · rw [if_neg hil]
            cases cds with
            | nil =>
              have hvls := condsMap_nil_vals centries (.obj m) cs (start + 1) _ hrec
              subst hvls
              show phScan (s ++ " $" ++ Nat.repr start).data none = _
              rw [phScan_bare_frag_end s hnds start]
              rfl
            | cons d ds =>
              have hd2 : (joinSep " AND " ((s ++ " $" ++ Nat.repr start) :: d :: ds)).data =
                  (s ++ " $" ++ Nat.repr start).data ++
                    ' ' :: (("AND " : String).data ++ (joinSep " AND " (d :: ds)).data) := by
                simp [joinSep, String.data_append]
              rw [hd2, phScan_bare_frag_cons s hnds start ' ' _ (by decide) (by decide),
                phScan_append_of_noDollar _ _ (by decide),
                phScan_condsMap centries m cs (start + 1) (d :: ds) _ hndcs hrec]
              rw [List.length_cons, range_map_succ_repr]
      | undefined =>
        rw [hsql] at h
        cases h
      | null =>
        rw [hsql] at h
        cases h
      | bool b =>
        rw [hsql] at h
        cases h
      | num i =>
        rw [hsql] at h
        cases h

/-- C8: on every successful call of either builder (over `$`-free column
names and fragments), the placeholders of the returned clause, read left to
right, are exactly `$1..$n` with no gaps or repetitions, where `n` is the
length of the returned values sequence. -/
theorem builders_placeholder_discipline :
    (∀ (d j : Obj) (r : SetResult),
      sqlForPartialUpdate (.obj d) (.obj j) = .ok r →
      (∀ k ∈ d.map Prod.fst, noDollar (resolveCol j k) = true) →
      extractPlaceholders r.setCols =
        (List.range r.values.length).map (fun i => Nat.repr (i + 1))) ∧
    (∀ (criteria m : Obj) (r : FilterResult),
      sqlForFilterBy (.obj criteria) (.obj m) = .ok r →
      (∀ p ∈ m, isStr p.2 = true ∧ noDollar (jsToString p.2) = true) →
      extractPlaceholders r.whereClause =
        (List.range r.values.length).map (fun i => Nat.repr (i + 1))) := by
  constructor
  · intro d j r hok hnd
    by_cases hne : d = []
    · subst hne
      have herr : sqlForPartialUpdate (.obj []) (.obj j) = .error (.badRequest "No data") := by
        simp [sqlForPartialUpdate, validateArgs, protoIsObjectLiteral]
      rw [herr] at hok
      cases hok
    · rw [sqlForPartialUpdate_obj d j hne] at hok
      cases hok
      show phScan (joinSep ", " (setColsFragments j (d.map Prod.fst))).data none = _
      rw [setColsFragments_eq_from, phScan_setColsFrom j (d.map Prod.fst) 1 hnd,
        List.length_map, List.length_map]
      apply List.map_congr_left
      intro i hi
      congr 1
      omega
  · intro criteria m r hok hm
    simp only [sqlForFilterBy, entriesOf] at hok
    rw [filterInMap_obj] at hok
    dsimp only at hok
    by_cases hlen : ((criteria.map Prod.fst).filter
        (fun c => decide (c ∈ m.map Prod.fst))).length = 0
    · rw [if_pos hlen] at hok
      cases hok
    · rw [if_neg hlen] at hok
      cases hcm : condsMap criteria (.obj m) (survivorsOf criteria
          ((criteria.map Prod.fst).filter (fun c => decide (c ∈ m.map Prod.fst)))) 1 with
      | error e =>
        rw [hcm] at hok
        cases hok
      | ok p =>
        obtain ⟨conds, vals⟩ := p
        rw [hcm] at hok
        cases hok
        have hndsurv : ∀ c ∈ survivorsOf criteria
            ((criteria.map Prod.fst).filter (fun c => decide (c ∈ m.map Prod.fst))),
            noDollar (jsToString (getProp m c)) = true := by
          intro c hc
          have hcmem : c ∈ (criteria.map Prod.fst).filter
              (fun x => decide (x ∈ m.map Prod.fst)) := by
            unfold survivorsOf at hc
            exact List.mem_of_mem_filter hc
          have hckeys : c ∈ m.map Prod.fst := mem_filter_keys hcmem
          exact (hm _ (getProp_mem m c hckeys)).2
        cases conds with
        | nil =>
          have hv : vals = [] :=
            condsMap_nil_vals criteria (.obj m) _ 1 vals hcm
          subst hv
          rfl
        | cons f fs =>
          have hscan := phScan_condsMap criteria m _ 1 (f :: fs) vals hndsurv hcm
          show extractPlaceholders
              (if ((f :: fs).length != 0) = true then "WHERE " ++ joinSep " AND " (f :: fs)
               else "") = _
          rw [if_pos (show ((f :: fs).length != 0) = true from rfl)]
          show phScan ("WHERE " ++ joinSep " AND " (f :: fs)).data none = _
          rw [String.data_append, phScan_append_of_noDollar _ _ (by decide), hscan]
          apply List.map_congr_left
          intro i hi
          congr 1
          omega

/-- Closed instances of the C8 theorem at concrete successful calls of both
builders. -/
theorem builders_placeholder_discipline_witness :
    (extractPlaceholders (SetResult.mk "\"a\"=$1" [JsPrim.num 0]).setCols =
      (List.range (SetResult.mk "\"a\"=$1" [JsPrim.num 0]).values.length).map
        (fun i => Nat.repr (i + 1))) ∧
    (extractPlaceholders (FilterResult.mk
        "WHERE name ILIKE CONCAT('%', $1::text, '%')" [JsPrim.str "Co"]).whereClause =
      (List.range (FilterResult.mk
        "WHERE name ILIKE CONCAT('%', $1::text, '%')" [JsPrim.str "Co"]).values.length).map
        (fun i => Nat.repr (i + 1))) :=
  ⟨builders_placeholder_discipline.1 [("a", JsPrim.num 0)] [] _ rfl (by decide),
   builders_placeholder_discipline.2 [("name", JsPrim.str "Co")]
     [("name", JsPrim.str "name ILIKE")] _ rfl (by decide)⟩

/-- Closed instance of the C2 amended theorem at the documented example. -/
theorem sqlForPartialUpdate_column_resolution_witness :
    ∃ r, sqlForPartialUpdate (.obj [("firstName", JsPrim.str "Aliya")])
        (.obj [("firstName", JsPrim.str "first_name")]) = .ok r ∧
      r.setCols = joinSep ", "
        ((([("firstName", JsPrim.str "Aliya")] : Obj).map Prod.fst).mapIdx
          (fun idx key => "\"" ++ specResolve [("firstName", JsPrim.str "first_name")] key ++
            "\"=$" ++ Nat.repr (idx + 1))) :=
  sqlForPartialUpdate_column_resolution _ _ (by decide)
